import Mathlib

/-!
Formal model of the `kvsheet.js` repository (`src/storage/kvGoogleStore.js`):
an in-memory key-value mapping synchronised with a two-column range of a
Google-Sheets-style tabular service.

JavaScript objects with string keys are modelled as insertion-ordered
association lists (a key occurs at most once in every list the program
builds), remote calls as explicit request values, and the filesystem and the
remote service as function-valued environments.  All definitions are
executable.
-/

namespace KVSheet

/-- Property lookup `obj[k]` on a JavaScript object modelled as an
insertion-ordered association list. -/
def objGet {α : Type} : List (String × α) → String → Option α
  | [], _ => none
  | p :: m, k => if p.1 = k then some p.2 else objGet m k

/-- Property assignment `obj[k] = v` on a JavaScript object: an existing
binding keeps its position and receives the new value, a fresh key is
appended at the end (JavaScript string-key insertion order). -/
def objSet {α : Type} : List (String × α) → String → α → List (String × α)
  | [], k, v => [(k, v)]
  | p :: m, k, v => if p.1 = k then (k, v) :: m else p :: objSet m k v

theorem objGet_objSet_self {α : Type} (m : List (String × α)) (k : String) (v : α) :
    objGet (objSet m k v) k = some v := by
  induction m with
  | nil => simp [objSet, objGet]
  | cons p m ih =>
    by_cases h : p.1 = k
    · simp [objSet, objGet, h]
    · simp [objSet, objGet, h, ih]

theorem objGet_objSet_of_ne {α : Type} (m : List (String × α)) (k k' : String) (v : α)
    (h : k' ≠ k) : objGet (objSet m k v) k' = objGet m k' := by
  induction m with
  | nil => simp [objSet, objGet, Ne.symm h]
  | cons p m ih =>
    by_cases hp : p.1 = k
    · simp [objSet, objGet, hp, Ne.symm h]
    · by_cases hq : p.1 = k'
      · simp [objSet, objGet, hp, hq, h]
      · simp [objSet, objGet, hp, hq, ih]

theorem mem_objSet_self {α : Type} (m : List (String × α)) (k : String) (v : α) :
    (k, v) ∈ objSet m k v := by
  induction m with
  | nil => simp [objSet]
  | cons p m ih =>
    by_cases h : p.1 = k
    · simp [objSet, h]
    · simp only [objSet, if_neg h]
      exact List.mem_cons_of_mem p ih

theorem objSet_of_objGet_none {α : Type} (m : List (String × α)) (k : String) (v : α)
    (h : objGet m k = none) : objSet m k v = m ++ [(k, v)] := by
  induction m with
  | nil => simp [objSet]
  | cons p m ih =>
    by_cases hp : p.1 = k
    · simp [objGet, hp] at h
    · simp only [objGet, if_neg hp] at h
      simp [objSet, hp, ih h]

theorem objGet_append_of_none {α : Type} (m₁ m₂ : List (String × α)) (k : String)
    (h : objGet m₁ k = none) : objGet (m₁ ++ m₂) k = objGet m₂ k := by
  induction m₁ with
  | nil => simp
  | cons p m ih =>
    by_cases hp : p.1 = k
    · simp [objGet, hp] at h
    · simp only [objGet, if_neg hp] at h
      simpa only [List.cons_append, objGet, if_neg hp] using ih h

/-- Folding fresh (never-before-present, pairwise distinct) keys into an
object just appends the pairs in order. -/
theorem foldl_objSet_fresh {α : Type} (m : List (String × α)) :
    ∀ init : List (String × α), (m.map Prod.fst).Nodup →
      (∀ p ∈ m, objGet init p.1 = none) →
      m.foldl (fun acc p => objSet acc p.1 p.2) init = init ++ m := by
  induction m with
  | nil => intro init _ _; simp
  | cons p m ih =>
    intro init hnd hfresh
    have hp : objGet init p.1 = none := hfresh p (List.mem_cons_self p m)
    have hnd' : (m.map Prod.fst).Nodup := by
      rw [List.map_cons, List.nodup_cons] at hnd
      exact hnd.2
    have hnotin : p.1 ∉ m.map Prod.fst := by
      rw [List.map_cons, List.nodup_cons] at hnd
      exact hnd.1
    have hfresh' : ∀ q ∈ m, objGet (init ++ [(p.1, p.2)]) q.1 = none := by
      intro q hq
      have h1 : objGet init q.1 = none := hfresh q (List.mem_cons_of_mem p hq)
      have hne : p.1 ≠ q.1 := by
        intro he
        exact hnotin (by rw [he]; exact List.mem_map_of_mem Prod.fst hq)
      rw [objGet_append_of_none _ _ _ h1]
      simp [objGet, hne]
    calc (p :: m).foldl (fun acc q => objSet acc q.1 q.2) init
        = m.foldl (fun acc q => objSet acc q.1 q.2) (objSet init p.1 p.2) := rfl
      _ = (init ++ [(p.1, p.2)]) ++ m := by
            rw [objSet_of_objGet_none _ _ _ hp]
            exact ih _ hnd' hfresh'
      _ = init ++ (p :: m) := by simp

/-! ## Row parsing performed by `KeyValueStore.load`

`load()` runs, for each fetched row, `const key = row[0]; const value =
row[1] ?? ''; this._data[key] = value;`.  A missing second cell defaults to
the empty string via `??`; a missing first cell leaves `key` as the
JavaScript value `undefined`, which property assignment coerces to the
property name `"undefined"`. -/

/-- Key extracted from a fetched row (`row[0]`, coerced to a property name:
a missing first cell becomes the property name `"undefined"`). -/
def rowKey (r : List String) : String := (r[0]?).getD "undefined"

/-- Value extracted from a fetched row (`row[1] ?? ''`). -/
def rowVal (r : List String) : String := (r[1]?).getD ""

/-- The mapping built by `load()` from the fetched rows: starting from the
fresh empty object `this._data = {}`, assign each row in order. -/
def loadData (rows : List (List String)) : List (String × String) :=
  rows.foldl (fun m r => objSet m (rowKey r) (rowVal r)) []

/-- Value that the LAST row carrying key `k` contributes, if any row does. -/
def lastRowVal : List (List String) → String → Option String
  | [], _ => none
  | r :: rs, k =>
    match lastRowVal rs k with
    | some v => some v
    | none => if rowKey r = k then some (rowVal r) else none

theorem objGet_foldl_load (rows : List (List String)) :
    ∀ (m : List (String × String)) (k : String),
      objGet (rows.foldl (fun m r => objSet m (rowKey r) (rowVal r)) m) k
        = match lastRowVal rows k with
          | some v => some v
          | none => objGet m k := by
  induction rows with
  | nil => intro m k; simp [lastRowVal]
  | cons r rs ih =>
    intro m k
    have h1 : (r :: rs).foldl (fun m r => objSet m (rowKey r) (rowVal r)) m
        = rs.foldl (fun m r => objSet m (rowKey r) (rowVal r))
            (objSet m (rowKey r) (rowVal r)) := rfl
    rw [h1, ih]
    cases hrs : lastRowVal rs k with
    | some v => simp [lastRowVal, hrs]
    | none =>
      simp only [lastRowVal, hrs]
      by_cases hk : rowKey r = k
      · subst hk
        simp [objGet_objSet_self]
      · simp [hk, objGet_objSet_of_ne _ _ _ _ (Ne.symm hk)]

/-- Lookup in the loaded mapping is exactly "last row with that key wins". -/
theorem objGet_loadData (rows : List (List String)) (k : String) :
    objGet (loadData rows) k = lastRowVal rows k := by
  unfold loadData
  rw [objGet_foldl_load]
  cases h : lastRowVal rows k <;> simp [objGet]

theorem lastRowVal_append (xs ys : List (List String)) (k : String) :
    lastRowVal (xs ++ ys) k
      = match lastRowVal ys k with
        | some v => some v
        | none => lastRowVal xs k := by
  induction xs with
  | nil => cases h : lastRowVal ys k <;> simp [lastRowVal, h]
  | cons r rs ih =>
    have hstep : lastRowVal ((r :: rs) ++ ys) k
        = match lastRowVal (rs ++ ys) k with
          | some v => some v
          | none => if rowKey r = k then some (rowVal r) else none := rfl
    rw [hstep, ih]
    cases h : lastRowVal ys k <;> cases h2 : lastRowVal rs k <;>
      simp [lastRowVal, h, h2]

theorem lastRowVal_eq_none (rows : List (List String)) (k : String)
    (h : ∀ r ∈ rows, rowKey r ≠ k) : lastRowVal rows k = none := by
  induction rows with
  | nil => rfl
  | cons r rs ih =>
    have h1 := h r (List.mem_cons_self r rs)
    have h2 : lastRowVal rs k = none := ih (fun q hq => h q (List.mem_cons_of_mem r hq))
    simp [lastRowVal, h2, h1]

theorem lastRowVal_isSome_of_mem (rows : List (List String)) (r : List String)
    (h : r ∈ rows) : (lastRowVal rows (rowKey r)).isSome := by
  induction rows with
  | nil => cases h
  | cons a rs ih =>
    rcases List.mem_cons.mp h with he | hm
    · subst he
      cases h2 : lastRowVal rs (rowKey r) with
      | some v => simp [lastRowVal, h2]
      | none => simp [lastRowVal, h2]
    · have := ih hm
      cases h2 : lastRowVal rs (rowKey r) with
      | some v => simp [lastRowVal, h2]
      | none => rw [h2] at this; simp at this

/-! ## Identifier resolver (`parseSheetId`)

The source tests the input against the regular expression
`/\/spreadsheets\/d\/([a-zA-Z0-9-_]+)/` and returns the first capture on a
match, the input itself otherwise.  The regular expression is modelled
directly: scan for the leftmost position where the literal
`/spreadsheets/d/` is followed by at least one identifier character, and
capture the maximal run of identifier characters there. -/

/-- Character class `[a-zA-Z0-9-_]` of the source regular expression. -/
def idChar (c : Char) : Bool :=
  ('a' ≤ c && c ≤ 'z') || ('A' ≤ c && c ≤ 'Z') || ('0' ≤ c && c ≤ '9')
    || c == '-' || c == '_'

/-- Literal part `/spreadsheets/d/` of the source regular expression. -/
def sheetIdPat : List Char := "/spreadsheets/d/".data

/-- Does the second list start with the first one? -/
def listStartsWith : List Char → List Char → Bool
  | [], _ => true
  | _ :: _, [] => false
  | p :: ps, c :: cs => p == c && listStartsWith ps cs

/-- Try to match the regular expression exactly at the head of `s`:
the literal, then a non-empty greedy capture of identifier characters. -/
def matchIdAt (s : List Char) : Option (List Char) :=
  if listStartsWith sheetIdPat s then
    let cap := (s.drop sheetIdPat.length).takeWhile idChar
    if cap.isEmpty then none else some cap
  else none

/-- Unanchored regex search: try each start position from the left. -/
def findSheetId : List Char → Option (List Char)
  | [] => none
  | c :: cs =>
    match matchIdAt (c :: cs) with
    | some cap => some cap
    | none => findSheetId cs

/-- The source's `parseSheetId`: first capture of the regex on a match,
otherwise the input unchanged. -/
def parseSheetId (s : String) : String :=
  match findSheetId s.data with
  | some cap => String.mk cap
  | none => s

theorem listStartsWith_append (ps rest : List Char) :
    listStartsWith ps (ps ++ rest) = true := by
  induction ps with
  | nil => rfl
  | cons p ps ih => simp [listStartsWith, ih]

theorem exists_of_listStartsWith (ps : List Char) :
    ∀ l, listStartsWith ps l = true → ∃ rest, l = ps ++ rest := by
  induction ps with
  | nil => intro l _; exact ⟨l, rfl⟩
  | cons p ps ih =>
    intro l h
    cases l with
    | nil => simp [listStartsWith] at h
    | cons c cs =>
      simp only [listStartsWith, Bool.and_eq_true, beq_iff_eq] at h
      obtain ⟨rest, hrest⟩ := ih cs h.2
      exact ⟨rest, by simp [hrest, h.1]⟩

theorem all_takeWhile_self {α : Type} (p : α → Bool) (l : List α) :
    (l.takeWhile p).all p = true := by
  induction l with
  | nil => rfl
  | cons a l ih =>
    by_cases h : p a
    · simp [List.takeWhile_cons, h, ih]
    · simp [List.takeWhile_cons, h]

/-- Any capture returned by the scanner really is an occurrence of the
pattern in the input: a non-empty all-identifier-character segment directly
following the literal `/spreadsheets/d/`. -/
theorem findSheetId_sound (l : List Char) :
    ∀ cap, findSheetId l = some cap →
      ∃ pre post, l = pre ++ sheetIdPat ++ cap ++ post
        ∧ cap ≠ [] ∧ cap.all idChar = true := by
  induction l with
  | nil => intro cap h; simp [findSheetId] at h
  | cons c cs ih =>
    intro cap h
    simp only [findSheetId] at h
    cases hm : matchIdAt (c :: cs) with
    | some cap' =>
      rw [hm] at h
      have hcap : cap' = cap := by
        simp at h
        exact h
      subst hcap
      simp only [matchIdAt] at hm
      split at hm
      · rename_i hsw
        split at hm
        · simp at hm
        · rename_i hemp
          have hcap' : ((c :: cs).drop sheetIdPat.length).takeWhile idChar = cap' := by
            simpa using hm
          obtain ⟨rest, hrest⟩ := exists_of_listStartsWith sheetIdPat (c :: cs) hsw
          have hdrop : (c :: cs).drop sheetIdPat.length = rest := by
            rw [hrest]; exact List.drop_left sheetIdPat rest
          rw [hdrop] at hcap'
          have hsplit : rest = cap' ++ rest.dropWhile idChar := by
            rw [← hcap']
            exact (List.takeWhile_append_dropWhile idChar rest).symm
          refine ⟨[], rest.dropWhile idChar, ?_, ?_, ?_⟩
          · rw [hrest]
            conv_lhs => rw [hsplit]
            simp
          · intro he
            rw [hdrop] at hemp
            rw [he] at hcap'
            rw [hcap'] at hemp
            simp at hemp
          · rw [← hcap']; exact all_takeWhile_self idChar rest
      · simp at hm
    | none =>
      rw [hm] at h
      obtain ⟨pre, post, hl, hne, hall⟩ := ih cap h
      exact ⟨c :: pre, post, by simp [hl], hne, hall⟩

theorem matchIdAt_isSome (cap post : List Char)
    (hne : cap ≠ []) (hall : cap.all idChar = true) :
    (matchIdAt (sheetIdPat ++ (cap ++ post))).isSome := by
  cases cap with
  | nil => exact absurd rfl hne
  | cons a cs =>
    have ha : idChar a = true := by
      simp only [List.all_cons, Bool.and_eq_true] at hall
      exact hall.1
    have hsw := listStartsWith_append sheetIdPat (a :: (cs ++ post))
    simp [matchIdAt, hsw, List.drop_left, List.takeWhile_cons, ha]

theorem findSheetId_isSome_of_matchIdAt (l : List Char)
    (h : (matchIdAt l).isSome) : (findSheetId l).isSome := by
  cases l with
  | nil =>
    rw [show matchIdAt ([] : List Char) = none from rfl] at h
    simp at h
  | cons c cs =>
    simp only [findSheetId]
    cases hm : matchIdAt (c :: cs) with
    | some cap => simp
    | none => rw [hm] at h; simp at h

/-- Whenever the input contains an occurrence of the pattern, the scanner
finds one. -/
theorem findSheetId_complete (pre : List Char) :
    ∀ cap post, cap ≠ [] → cap.all idChar = true →
      (findSheetId (pre ++ sheetIdPat ++ cap ++ post)).isSome := by
  induction pre with
  | nil =>
    intro cap post hne hall
    have h := findSheetId_isSome_of_matchIdAt (sheetIdPat ++ (cap ++ post))
      (matchIdAt_isSome cap post hne hall)
    simpa [List.append_assoc] using h
  | cons c pre ih =>
    intro cap post hne hall
    have hl : (c :: pre) ++ sheetIdPat ++ cap ++ post
        = c :: (pre ++ sheetIdPat ++ cap ++ post) := by simp
    rw [hl]
    simp only [findSheetId]
    cases hm : matchIdAt (c :: (pre ++ sheetIdPat ++ cap ++ post)) with
    | some cap' => simp
    | none => exact ih cap post hne hall

/-- Inversion of a successful anchored match: the input starts with the
literal, and the capture is the (non-empty) greedy run of identifier
characters right after it. -/
theorem matchIdAt_some_inv (t cap : List Char) (h : matchIdAt t = some cap) :
    ∃ rest, t = sheetIdPat ++ rest ∧ cap = rest.takeWhile idChar ∧ cap ≠ [] := by
  simp only [matchIdAt] at h
  split at h
  · rename_i hsw
    split at h
    · simp at h
    · rename_i hemp
      obtain ⟨rest, hrest⟩ := exists_of_listStartsWith sheetIdPat t hsw
      have hdrop : t.drop sheetIdPat.length = rest := by
        rw [hrest]; exact List.drop_left sheetIdPat rest
      have hc : (t.drop sheetIdPat.length).takeWhile idChar = cap := by
        simpa using h
      refine ⟨rest, hrest, ?_, ?_⟩
      · rw [← hdrop]; exact hc.symm
      · intro he
        rw [hc, he] at hemp
        simp at hemp
  · simp at h

/-- Value of an anchored match attempt right after the literal. -/
theorem matchIdAt_append_eq (X : List Char) :
    matchIdAt (sheetIdPat ++ X)
      = if (X.takeWhile idChar).isEmpty then none
        else some (X.takeWhile idChar) := by
  simp [matchIdAt, listStartsWith_append, List.drop_left]

theorem takeWhile_dropWhile_nil {α : Type} (p : α → Bool) (l : List α) :
    (l.dropWhile p).takeWhile p = [] := by
  induction l with
  | nil => rfl
  | cons a t ih =>
    by_cases h : p a
    · simpa [List.dropWhile_cons, h] using ih
    · simp [List.dropWhile_cons, List.takeWhile_cons, h]

/-- A run of identifier characters not extendable to the right is exactly
what the greedy capture takes. -/
theorem takeWhile_append_of_max (cap post : List Char)
    (hall : cap.all idChar = true) (hmax : post.takeWhile idChar = []) :
    (cap ++ post).takeWhile idChar = cap := by
  induction cap with
  | nil => simpa using hmax
  | cons a cs ih =>
    have ha : idChar a = true := by
      simp only [List.all_cons, Bool.and_eq_true] at hall
      exact hall.1
    have hcs : cs.all idChar = true := by
      simp only [List.all_cons, Bool.and_eq_true] at hall
      exact hall.2
    simp [List.takeWhile_cons, ha, ih hcs]

/-- Structure of the unanchored scan: the returned capture comes from the
leftmost position where the anchored match succeeds, every earlier
position failing. -/
theorem findSheetId_scan (l : List Char) :
    ∀ cap, findSheetId l = some cap →
      ∃ n, n ≤ l.length
        ∧ (∀ i, i < n → matchIdAt (l.drop i) = none)
        ∧ matchIdAt (l.drop n) = some cap := by
  induction l with
  | nil => intro cap h; simp [findSheetId] at h
  | cons c cs ih =>
    intro cap h
    simp only [findSheetId] at h
    cases hm : matchIdAt (c :: cs) with
    | some cap' =>
      rw [hm] at h
      have hcc : cap' = cap := by
        simp at h
        exact h
      subst hcc
      exact ⟨0, Nat.zero_le _, fun i hi => absurd hi (Nat.not_lt_zero i),
        by simpa using hm⟩
    | none =>
      rw [hm] at h
      obtain ⟨n, hle, hnone, hsome⟩ := ih cap h
      refine ⟨n + 1, Nat.succ_le_succ hle, ?_, ?_⟩
      · intro i hi
        cases i with
        | zero => simpa using hm
        | succ j =>
          have hj : j < n := Nat.lt_of_succ_lt_succ hi
          simpa [List.drop_succ_cons] using hnone j hj
      · simpa [List.drop_succ_cons] using hsome

/-- A successful anchored match at position `n` yields a decomposition of
the input there, with a non-extendable capture. -/
theorem scan_decomposition (l : List Char) (n : Nat) (cap : List Char)
    (hnle : n ≤ l.length) (hmatch : matchIdAt (l.drop n) = some cap) :
    ∃ post, l = l.take n ++ sheetIdPat ++ cap ++ post
      ∧ cap ≠ [] ∧ cap.all idChar = true ∧ post.takeWhile idChar = []
      ∧ (l.take n).length = n := by
  obtain ⟨rest, hrest, hcapeq, hcne⟩ := matchIdAt_some_inv (l.drop n) cap hmatch
  have hrest2 : rest = cap ++ rest.dropWhile idChar := by
    have h0 := (List.takeWhile_append_dropWhile idChar rest).symm
    rw [← hcapeq] at h0
    exact h0
  refine ⟨rest.dropWhile idChar, ?_, hcne, ?_, takeWhile_dropWhile_nil idChar rest, ?_⟩
  · conv_lhs => rw [← List.take_append_drop n l, hrest, hrest2]
    simp
  · rw [hcapeq]
    exact all_takeWhile_self idChar rest
  · rw [List.length_take]
    exact Nat.min_eq_left hnle

/-- Any occurrence of the pattern in the input makes the anchored match
succeed at the occurrence's position. -/
theorem matchIdAt_isSome_at (s pre cap post : List Char)
    (hdec : s = pre ++ sheetIdPat ++ cap ++ post)
    (hne : cap ≠ []) (hall : cap.all idChar = true) :
    (matchIdAt (s.drop pre.length)).isSome := by
  have hdrop : s.drop pre.length = sheetIdPat ++ (cap ++ post) := by
    rw [hdec]
    have hassoc : pre ++ sheetIdPat ++ cap ++ post
        = pre ++ (sheetIdPat ++ (cap ++ post)) := by simp
    rw [hassoc, List.drop_left]
  rw [hdrop]
  exact matchIdAt_isSome cap post hne hall

/-- If the anchored match fails at every position before `n`, every
occurrence of the pattern starts at position `n` or later. -/
theorem leftmost_of_scan (s : List Char) (n : Nat)
    (h : ∀ i, i < n → matchIdAt (s.drop i) = none) :
    ∀ pre' cap' post', s = pre' ++ sheetIdPat ++ cap' ++ post' →
      cap' ≠ [] → cap'.all idChar = true → n ≤ pre'.length := by
  intro pre' cap' post' hdec hne hall
  by_contra hlt
  push_neg at hlt
  have hsome := matchIdAt_isSome_at s pre' cap' post' hdec hne hall
  rw [h pre'.length hlt] at hsome
  simp at hsome

/-- A decomposition that is leftmost (no valid occurrence starts earlier)
and maximal (the capture is not extendable to the right) pins the scanner's
result exactly. -/
theorem findSheetId_pinned (l pre cap post : List Char)
    (hdec : l = pre ++ sheetIdPat ++ cap ++ post)
    (hne : cap ≠ []) (hall : cap.all idChar = true)
    (hmax : post.takeWhile idChar = [])
    (hleft : ∀ pre' cap' post', l = pre' ++ sheetIdPat ++ cap' ++ post' →
        cap' ≠ [] → cap'.all idChar = true → pre.length ≤ pre'.length) :
    findSheetId l = some cap := by
  have hsome : (findSheetId l).isSome := by
    rw [hdec]
    exact findSheetId_complete pre cap post hne hall
  obtain ⟨cap0, hcap0⟩ := Option.isSome_iff_exists.mp hsome
  obtain ⟨n, hnle, hscan, hmatch⟩ := findSheetId_scan l cap0 hcap0
  have hbridge := matchIdAt_isSome_at l pre cap post hdec hne hall
  have hge : n ≤ pre.length := by
    by_contra hlt
    push_neg at hlt
    rw [hscan pre.length hlt] at hbridge
    simp at hbridge
  have hle2 : pre.length ≤ n := by
    obtain ⟨post0, htake, hcne, hall0, _hmax0, hlen⟩ :=
      scan_decomposition l n cap0 hnle hmatch
    have h1 := hleft (l.take n) cap0 post0 htake hcne hall0
    rw [hlen] at h1
    exact h1
  have hn : n = pre.length := Nat.le_antisymm hge hle2
  have hdrop : l.drop pre.length = sheetIdPat ++ (cap ++ post) := by
    rw [hdec]
    have hassoc : pre ++ sheetIdPat ++ cap ++ post
        = pre ++ (sheetIdPat ++ (cap ++ post)) := by simp
    rw [hassoc, List.drop_left]
  have hcomp : matchIdAt (l.drop pre.length) = some cap := by
    rw [hdrop, matchIdAt_append_eq, takeWhile_append_of_max cap post hall hmax]
    cases cap with
    | nil => exact absurd rfl hne
    | cons a t => simp
  rw [hn] at hmatch
  have hcap : cap0 = cap := by
    have h2 := hcomp.symm.trans hmatch
    simpa using h2.symm
  rw [hcap0, hcap]

/-! ## The adapter (`KeyValueStore`) -/

/-- State of a `KeyValueStore` instance: the constructor-stored fields and
the in-memory `_data` mapping.  The authenticated client is an opaque
handle. -/
structure StoreState where
  authClient : String
  sheetId : String
  sheetName : Option String
  startX : String
  startY : Int
  data : List (String × String)
deriving DecidableEq, Repr

/-- The constructor: stores its options and initialises `_data = {}`. -/
def mkKeyValueStore (authClient sheetId : String) (sheetName : Option String)
    (startX : String) (startY : Int) : StoreState :=
  { authClient := authClient, sheetId := sheetId, sheetName := sheetName,
    startX := startX, startY := startY, data := [] }

/-- The sheet-name qualifier of the range string:
`this._sheetName ? sheetName! : ''`.  JavaScript truthiness makes both an
absent sheet name and the empty string produce the empty qualifier. -/
def rangeSheetQualifier : Option String → String
  | none => ""
  | some s => if s = "" then "" else s ++ "!"

/-- Range string computed by `load()` (line 56):
`rangePrefix + startX + startY + ":B"`. -/
def loadRange (st : StoreState) : String :=
  rangeSheetQualifier st.sheetName ++ st.startX ++ toString st.startY ++ ":B"

/-- Range string computed by `save()` (line 80), textually the same
formula as in `load()`. -/
def saveRange (st : StoreState) : String :=
  rangeSheetQualifier st.sheetName ++ st.startX ++ toString st.startY ++ ":B"

/-- The `load()` method, given the remote response
(`response.data.values`, which is absent for an empty range): replaces
`_data` with a freshly built object holding the parsed rows. -/
def load (st : StoreState) (responseValues : Option (List (List String))) : StoreState :=
  { st with data := loadData (responseValues.getD []) }

/-- Rows sent by `save()`: `Object.entries(this._data)`, one `[key, value]`
row per entry, in the mapping's own iteration order. -/
def entriesRows (m : List (String × String)) : List (List String) :=
  m.map fun p => [p.1, p.2]

/-- One request issued against the remote tabular service. -/
inductive SheetsRequest where
  | clear (spreadsheetId : String) (range : String)
  | update (spreadsheetId : String) (range : String) (values : List (List String))
deriving DecidableEq, Repr

/-- The `save()` method as the sequence of requests it issues: one clear of
the full target range, then one write of the entry rows to that range. -/
def saveRequests (st : StoreState) : List SheetsRequest :=
  [SheetsRequest.clear st.sheetId (saveRange st),
   SheetsRequest.update st.sheetId (saveRange st) (entriesRows st.data)]

/-- Effect of a request on the remotely stored contents of the target
range: a clear empties it, an update replaces it with the sent rows. -/
def applyRequest (_vals : List (List String)) : SheetsRequest → List (List String)
  | SheetsRequest.clear _ _ => []
  | SheetsRequest.update _ _ rows => rows

/-- Remote contents of the target range after a request sequence. -/
def runRequests (vals : List (List String)) (reqs : List SheetsRequest) :
    List (List String) :=
  reqs.foldl applyRequest vals

theorem loadData_entriesRows (m : List (String × String))
    (h : (m.map Prod.fst).Nodup) : loadData (entriesRows m) = m := by
  unfold loadData entriesRows
  rw [List.foldl_map]
  have hfun : (fun (acc : List (String × String)) (p : String × String) =>
      objSet acc (rowKey [p.1, p.2]) (rowVal [p.1, p.2]))
      = fun acc p => objSet acc p.1 p.2 := by
    funext acc p
    rfl
  rw [hfun]
  have := foldl_objSet_fresh m [] h (fun p _ => rfl)
  simpa using this

/-! ## The accessor wrapper (`wrapStoreInProxy`)

The proxy's traps test `prop in target`, which is true for the instance's
own fields, for the class prototype members (`load`, `save`,
`constructor`), and for the members inherited from `Object.prototype`.  On
such names `Reflect.get` walks the chain and `Reflect.set` (with the proxy
as receiver and no `defineProperty` trap) creates or updates an own data
property on the instance, shadowing prototype members; on every other name
the traps fall through to `target._data[prop]`. -/

/-- A JavaScript value as far as the wrapper is concerned: a string, a
number, an opaque non-string value (function, object, ...), or
`undefined`. -/
inductive JsVal where
  | str : String → JsVal
  | num : Int → JsVal
  | native : String → JsVal
  | undef : JsVal
deriving DecidableEq, Repr

/-- Member names contributed by `Object.prototype`. -/
def objectProtoNames : List String :=
  ["constructor", "hasOwnProperty", "isPrototypeOf", "propertyIsEnumerable",
   "toLocaleString", "toString", "valueOf", "__defineGetter__",
   "__defineSetter__", "__lookupGetter__", "__lookupSetter__", "__proto__"]

/-- Member names contributed by `KeyValueStore.prototype`. -/
def classProtoNames : List String := ["constructor", "load", "save"]

/-- Lookup along the prototype chain of a `KeyValueStore` instance. -/
def protoLookup (p : String) : Option JsVal :=
  if p ∈ classProtoNames then some (JsVal.native p)
  else if p ∈ objectProtoNames then some (JsVal.native p)
  else none

/-- A proxied `KeyValueStore` instance: its own properties (the
constructor-created fields, plus any later shadowing assignments) and the
contents of its `_data` mapping. -/
structure ProxyStore where
  ownProps : List (String × JsVal)
  data : List (String × String)
deriving DecidableEq, Repr

/-- `wrapStoreInProxy`: the proxied view of a store whose own properties
are exactly the six constructor-created fields. -/
def wrapStoreInProxy (st : StoreState) : ProxyStore :=
  { ownProps :=
      [("_authClient", JsVal.native st.authClient),
       ("_sheetId", JsVal.str st.sheetId),
       ("_sheetName",
         match st.sheetName with
         | some s => JsVal.str s
         | none => JsVal.undef),
       ("_startX", JsVal.str st.startX),
       ("_startY", JsVal.num st.startY),
       ("_data", JsVal.native "object Object")],
    data := st.data }

/-- The `prop in target` test of both traps. -/
def inTarget (st : ProxyStore) (p : String) : Bool :=
  (objGet st.ownProps p).isSome || (protoLookup p).isSome

/-- `Reflect.get(target, prop, receiver)`: own property first, then the
prototype chain. -/
def targetGet (st : ProxyStore) (p : String) : JsVal :=
  match objGet st.ownProps p with
  | some v => v
  | none => (protoLookup p).getD JsVal.undef

/-- The proxy's get trap: adapter member when `prop in target`, otherwise
`target._data[prop]`. -/
def proxyGet (st : ProxyStore) (p : String) : JsVal :=
  if inTarget st p then targetGet st p
  else
    match objGet st.data p with
    | some v => JsVal.str v
    | none => JsVal.undef

/-- The proxy's set trap with a string value.  When `prop in target`,
`Reflect.set(target, prop, value, receiver)` with the proxy as receiver
creates or updates an own data property on the instance — every modelled
chain member is a writable data property except the one inherited accessor
property, `Object.prototype.__proto__`: when the name resolves to it (no
own property shadows it), its inherited setter runs instead, ignores a
string value, and creates no own property.  When the name is not in the
target, the trap stores into `target._data[prop]`. -/
def proxySet (st : ProxyStore) (p : String) (v : String) : ProxyStore :=
  if inTarget st p then
    match objGet st.ownProps p with
    | some _ => { st with ownProps := objSet st.ownProps p (JsVal.str v) }
    | none =>
      if p = "__proto__" then st
      else { st with ownProps := objSet st.ownProps p (JsVal.str v) }
  else { st with data := objSet st.data p v }

/-! ## Credentials (`getServiceAccountCredentials`) and the factory
(`createKeyValueStore`)

The filesystem, JSON parsing and the remote service are modelled as
function-valued environments; the calls the code makes against them are
recorded as explicit event values. -/

/-- Service-account credentials (`client_email` / `private_key`). -/
structure Creds where
  client_email : String
  private_key : String
deriving DecidableEq, Repr

/-- Filesystem and JSON environment: `path.resolve`, `fs.existsSync`,
`fs.readFileSync` and `JSON.parse` (which may fail). -/
structure FsModel where
  resolvePath : String → String
  fileExists : String → Bool
  readFile : String → String
  parseJson : String → Except String Creds

/-- A filesystem access performed by the code. -/
inductive FsEvent where
  | existsCheck (p : String)
  | readFile (p : String)
deriving DecidableEq, Repr

/-- JavaScript truthiness of a possibly-undefined string: `undefined` and
the empty string are falsy. -/
def truthy : Option String → Bool
  | none => false
  | some s => if s = "" then false else true

/-- `getServiceAccountCredentials`: the explicit `clientEmail`/`privateKey`
pair when both are truthy, otherwise the resolved credentials file if it
exists, otherwise a configuration error.  The second component records the
filesystem accesses performed. -/
def getServiceAccountCredentials (clientEmail privateKey : Option String)
    (serviceAccountCredentials : String) (fs : FsModel) :
    Except String Creds × List FsEvent :=
  if truthy clientEmail && truthy privateKey then
    (Except.ok { client_email := clientEmail.getD "",
                 private_key := privateKey.getD "" }, [])
  else
    let jsonPath := fs.resolvePath serviceAccountCredentials
    if fs.fileExists jsonPath then
      (fs.parseJson (fs.readFile jsonPath),
       [FsEvent.existsCheck jsonPath, FsEvent.readFile jsonPath])
    else
      (Except.error ("Cannot find valid service account credentials. " ++
          "Provide either (clientEmail, privateKey) or a valid " ++
          "serviceAccountCredentials file."),
       [FsEvent.existsCheck jsonPath])

/-- Factory options (every field may be left undefined). -/
structure FactoryOptions where
  sheetId : Option String := none
  sheetName : Option String := none
  startX : Option String := none
  startY : Option Int := none
  serviceAccountCredentials : Option String := none
  clientEmail : Option String := none
  privateKey : Option String := none

/-- The `.env`-backed process environment read by the factory. -/
structure Env where
  SHEET_ID : Option String := none
  SHEET_NAME : Option String := none
  START_X : Option String := none
  START_Y : Option String := none
  SERVICE_ACCOUNT_CREDENTIALS : Option String := none
  GOOGLE_CLIENT_EMAIL : Option String := none
  GOOGLE_PRIVATE_KEY : Option String := none

/-- JavaScript `s || d` for a possibly-undefined string operand. -/
def jsOrDefault (v : Option String) (d : String) : String :=
  match v with
  | none => d
  | some s => if s = "" then d else s

/-- Destructuring default `sheetId = process.env.SHEET_ID`. -/
def resolvedSheetId (opts : FactoryOptions) (env : Env) : Option String :=
  match opts.sheetId with
  | some s => some s
  | none => env.SHEET_ID

/-- Destructuring default `sheetName = process.env.SHEET_NAME`. -/
def resolvedSheetName (opts : FactoryOptions) (env : Env) : Option String :=
  match opts.sheetName with
  | some s => some s
  | none => env.SHEET_NAME

/-- Destructuring default `startX = process.env.START_X || 'A'`. -/
def resolvedStartX (opts : FactoryOptions) (env : Env) : String :=
  match opts.startX with
  | some s => s
  | none => jsOrDefault env.START_X "A"

/-- Destructuring default `startY = Number(process.env.START_Y || '1')`;
the `Number(...)` coercion is abstracted as the ambient `parseNum`. -/
def resolvedStartY (opts : FactoryOptions) (env : Env) (parseNum : String → Int) : Int :=
  match opts.startY with
  | some n => n
  | none => parseNum (jsOrDefault env.START_Y "1")

/-- Destructuring default for the credentials-file path. -/
def resolvedCredsPath (opts : FactoryOptions) (env : Env) : String :=
  match opts.serviceAccountCredentials with
  | some s => s
  | none => jsOrDefault env.SERVICE_ACCOUNT_CREDENTIALS "./service_account.json"

/-- Destructuring default `clientEmail = process.env.GOOGLE_CLIENT_EMAIL`. -/
def resolvedClientEmail (opts : FactoryOptions) (env : Env) : Option String :=
  match opts.clientEmail with
  | some s => some s
  | none => env.GOOGLE_CLIENT_EMAIL

/-- Destructuring default `privateKey = process.env.GOOGLE_PRIVATE_KEY`. -/
def resolvedPrivateKey (opts : FactoryOptions) (env : Env) : Option String :=
  match opts.privateKey with
  | some s => some s
  | none => env.GOOGLE_PRIVATE_KEY

/-- A call against the remote service (the JWT authorization and the
initial range read issued by the factory). -/
inductive RemoteCall where
  | authorize
  | valuesGet (spreadsheetId : String) (range : String)
deriving DecidableEq, Repr

/-- Behaviour of the remote service during factory construction. -/
structure RemoteModel where
  authorize : Except String Unit
  valuesGet : String → String → Except String (Option (List (List String)))

/-- `createKeyValueStore`: resolve configuration, fail without a sheet id,
resolve credentials (may fail), authorize, construct the store, run the
initial `load()`, and return the proxy-wrapped store.  The second
component records the remote calls issued, in order. -/
def createKeyValueStore (opts : FactoryOptions) (env : Env)
    (parseNum : String → Int) (fs : FsModel) (remote : RemoteModel) :
    Except String ProxyStore × List RemoteCall :=
  if truthy (resolvedSheetId opts env) then
    let sid := parseSheetId ((resolvedSheetId opts env).getD "")
    match (getServiceAccountCredentials (resolvedClientEmail opts env)
        (resolvedPrivateKey opts env) (resolvedCredsPath opts env) fs).1 with
    | Except.error msg => (Except.error msg, [])
    | Except.ok _ =>
      match remote.authorize with
      | Except.error msg => (Except.error msg, [RemoteCall.authorize])
      | Except.ok _ =>
        let st := mkKeyValueStore "jwt" sid (resolvedSheetName opts env)
          (resolvedStartX opts env) (resolvedStartY opts env parseNum)
        match remote.valuesGet sid (loadRange st) with
        | Except.error msg =>
          (Except.error msg,
           [RemoteCall.authorize, RemoteCall.valuesGet sid (loadRange st)])
        | Except.ok vals =>
          (Except.ok (wrapStoreInProxy (load st vals)),
           [RemoteCall.authorize, RemoteCall.valuesGet sid (loadRange st)])
  else
    (Except.error "No SHEET_ID found. Provide it via options or .env.", [])

/-! ## Claim theorems -/

/-- Claim C1: for every mapping held in the adapter (keys pairwise
distinct, as in any JavaScript object), `save()` followed by a fresh
`load()` over the same range — with the remote service faithfully storing
what was written — yields a mapping equal to the one saved, string values
preserved exactly. -/
theorem c1_round_trip (st : StoreState) (prior : List (List String))
    (h : (st.data.map Prod.fst).Nodup) :
    (load st (some (runRequests prior (saveRequests st)))).data = st.data := by
  exact loadData_entriesRows st.data h

/-- Store holding the spec's example mapping. -/
def c1Store : StoreState :=
  { authClient := "jwt", sheetId := "s", sheetName := some "Sheet1",
    startX := "A", startY := 1, data := [("a", "1"), ("b", "2")] }

theorem c1_round_trip_witness :
    ((c1Store.data.map Prod.fst).Nodup)
    ∧ (load c1Store (some (runRequests [["x", "old"]] (saveRequests c1Store)))).data
        = c1Store.data :=
  ⟨by decide, c1_round_trip c1Store [["x", "old"]] (by decide)⟩

/-- Claim C2 (amended): both `load()` and `save()` compute the same target
range string, the concatenation of an optional sheet-name part
(`<sheetName>!` when the sheet name is set to a non-empty string, empty
when it is unset or set to the empty string) followed by
`<startX><startY>:B`, the second column literally fixed at `B` regardless
of the configured start column. -/
theorem c2_range_formula (st : StoreState) :
    loadRange st = saveRange st
    ∧ loadRange st
        = (match st.sheetName with
           | none => ""
           | some s => if s = "" then "" else s ++ "!")
          ++ st.startX ++ toString st.startY ++ ":B"
    ∧ ∃ body, loadRange st = body ++ ":B" := by
  refine ⟨rfl, ?_,
    ⟨rangeSheetQualifier st.sheetName ++ st.startX ++ toString st.startY, rfl⟩⟩
  cases h : st.sheetName <;> simp [loadRange, rangeSheetQualifier, h]

/-- Claim C2 as frozen fails at an adapter state whose sheet name is set
but empty: the code emits no `!` qualifier there, while the claimed
formula would. -/
theorem c2_range_counterexample :
    loadRange { authClient := "jwt", sheetId := "s", sheetName := some "",
                startX := "A", startY := 1, data := [] } = "A1:B"
    ∧ ("" ++ "!" ++ "A" ++ toString (1 : Int) ++ ":B") = "!A1:B"
    ∧ ("A1:B" : String) ≠ "!A1:B" := by
  refine ⟨?_, ?_, ?_⟩ <;> decide

/-- Claim C3: `save()` issues exactly one clear of the full target range
followed by exactly one write whose rows are the mapping's entries — one
`[key, value]` row per entry, in the mapping's iteration order — and
running those two requests leaves the remote range holding exactly the
current entries, whatever it held before (full replace, not merge). -/
theorem c3_save_full_replace (st : StoreState) (prior : List (List String)) :
    saveRequests st
      = [SheetsRequest.clear st.sheetId (saveRange st),
         SheetsRequest.update st.sheetId (saveRange st)
           (st.data.map fun p => [p.1, p.2])]
    ∧ runRequests prior (saveRequests st) = st.data.map fun p => [p.1, p.2] :=
  ⟨rfl, rfl⟩

/-- Claim C4: `load()` replaces the whole in-memory mapping with the rows
just read: the new mapping is a function of the response alone (identical
for any two prior states), and its lookups are exactly those derived from
the fetched rows. -/
theorem c4_load_replaces (st st' : StoreState)
    (resp : Option (List (List String))) :
    (load st resp).data = loadData (resp.getD [])
    ∧ (load st resp).data = (load st' resp).data
    ∧ ∀ k, objGet (load st resp).data k = lastRowVal (resp.getD []) k :=
  ⟨rfl, rfl, fun k => objGet_loadData _ k⟩

/-- Claim C5: each fetched row contributes its first cell as the key and
its second cell as the value; a missing second cell defaults to the empty
string (the key is present, mapped to `""`, not absent), and a row with no
first cell is stored under the property name that the JavaScript
`undefined` key coerces to. -/
theorem c5_row_parsing (rows : List (List String)) (r : List String)
    (h : r ∈ rows) :
    (objGet (loadData rows) (rowKey r)).isSome
    ∧ rowKey r = (r[0]?).getD "undefined"
    ∧ rowVal r = (r[1]?).getD ""
    ∧ loadData [r] = [(rowKey r, rowVal r)]
    ∧ (r[1]? = none → objGet (loadData [r]) (rowKey r) = some "")
    ∧ (r[0]? = none → rowKey r = "undefined") := by
  refine ⟨?_, rfl, rfl, rfl, ?_, ?_⟩
  · rw [objGet_loadData]
    exact lastRowVal_isSome_of_mem rows r h
  · intro h1
    show objGet (objSet [] (rowKey r) (rowVal r)) (rowKey r) = some ""
    rw [objGet_objSet_self]
    simp [rowVal, h1]
  · intro h0
    simp [rowKey, h0]

theorem c5_row_parsing_witness :
    (["k"] ∈ ([[("k" : String)]] : List (List String)))
    ∧ ((objGet (loadData [["k"]]) (rowKey ["k"])).isSome
       ∧ rowKey ["k"] = ((["k"] : List String)[0]?).getD "undefined"
       ∧ rowVal ["k"] = ((["k"] : List String)[1]?).getD ""
       ∧ loadData [["k"]] = [(rowKey ["k"], rowVal ["k"])]
       ∧ ((["k"] : List String)[1]? = none →
            objGet (loadData [["k"]]) (rowKey ["k"]) = some "")
       ∧ ((["k"] : List String)[0]? = none → rowKey ["k"] = "undefined")) :=
  ⟨by decide, c5_row_parsing _ _ (by decide)⟩

/-- Claim C10: when several fetched rows share a key, the mapping built by
`load()` maps that key to the value of the last such row — later rows
silently overwrite earlier ones, with no error. -/
theorem c10_last_row_wins (pre mid post : List (List String))
    (r₁ r₂ : List String) (k : String)
    (h₁ : rowKey r₁ = k) (h₂ : rowKey r₂ = k)
    (hpost : ∀ r ∈ post, rowKey r ≠ k) :
    objGet (loadData (pre ++ (r₁ :: mid) ++ (r₂ :: post))) k
      = some (rowVal r₂) := by
  rw [objGet_loadData]
  have hp : lastRowVal post k = none := lastRowVal_eq_none post k hpost
  have h2 : lastRowVal (r₂ :: post) k = some (rowVal r₂) := by
    simp [lastRowVal, hp, h₂]
  have h3 : lastRowVal ((r₁ :: mid) ++ (r₂ :: post)) k = some (rowVal r₂) := by
    rw [lastRowVal_append, h2]
  have h4 : pre ++ (r₁ :: mid) ++ (r₂ :: post)
      = pre ++ ((r₁ :: mid) ++ (r₂ :: post)) := by simp
  rw [h4, lastRowVal_append, h3]

theorem c10_last_row_wins_witness :
    rowKey ["a", "1"] = "a" ∧ rowKey ["a", "2"] = "a"
    ∧ (∀ r ∈ ([] : List (List String)), rowKey r ≠ "a")
    ∧ objGet (loadData (([] : List (List String)) ++ (["a", "1"] :: [])
        ++ (["a", "2"] :: []))) "a" = some (rowVal ["a", "2"]) :=
  ⟨rfl, rfl, by decide,
   c10_last_row_wins [] [] [] ["a", "1"] ["a", "2"] "a" rfl rfl (by decide)⟩

/-- Claim C6: `parseSheetId` is a pure total function; on any input
containing a `/spreadsheets/d/<id>` segment (non-empty `<id>` over
alphanumerics, hyphen and underscore) it returns exactly the regex's
capture — the id of the leftmost occurrence, extended greedily — and on
any input containing no such segment it returns the input unchanged.
First conjunct: every input containing a segment has a canonical
(leftmost, maximal) decomposition and the result is its capture.  Second
conjunct: at any leftmost (no valid occurrence starts earlier) and
maximal (the capture not extendable by a further identifier character)
decomposition, the result is pinned to exactly that capture.  Third
conjunct: no-match pass-through. -/
theorem c6_resolveIdentifier (s : String) :
    ((∃ pre cap post, s.data = pre ++ sheetIdPat ++ cap ++ post
        ∧ cap ≠ [] ∧ cap.all idChar = true) →
      ∃ pre cap post,
        (s.data = pre ++ sheetIdPat ++ cap ++ post
          ∧ cap ≠ [] ∧ cap.all idChar = true
          ∧ post.takeWhile idChar = []
          ∧ (∀ pre' cap' post', s.data = pre' ++ sheetIdPat ++ cap' ++ post' →
              cap' ≠ [] → cap'.all idChar = true → pre.length ≤ pre'.length))
        ∧ parseSheetId s = String.mk cap)
    ∧ (∀ pre cap post, s.data = pre ++ sheetIdPat ++ cap ++ post →
        cap ≠ [] → cap.all idChar = true →
        post.takeWhile idChar = [] →
        (∀ pre' cap' post', s.data = pre' ++ sheetIdPat ++ cap' ++ post' →
            cap' ≠ [] → cap'.all idChar = true → pre.length ≤ pre'.length) →
        parseSheetId s = String.mk cap)
    ∧ ((¬ ∃ pre cap post, s.data = pre ++ sheetIdPat ++ cap ++ post
        ∧ cap ≠ [] ∧ cap.all idChar = true) →
      parseSheetId s = s) := by
  refine ⟨?_, ?_, ?_⟩
  · rintro ⟨pre, cap, post, hdec, hne, hall⟩
    have hsome : (findSheetId s.data).isSome := by
      rw [hdec]
      exact findSheetId_complete pre cap post hne hall
    obtain ⟨cap0, hcap0⟩ := Option.isSome_iff_exists.mp hsome
    obtain ⟨n, hnle, hscan, hmatch⟩ := findSheetId_scan s.data cap0 hcap0
    obtain ⟨post0, htake, hcne, hall0, hmax0, hlen⟩ :=
      scan_decomposition s.data n cap0 hnle hmatch
    refine ⟨s.data.take n, cap0, post0, ⟨htake, hcne, hall0, hmax0, ?_⟩, ?_⟩
    · intro pre' cap' post' hdec' hne' hall'
      rw [hlen]
      exact leftmost_of_scan s.data n hscan pre' cap' post' hdec' hne' hall'
    · simp [parseSheetId, hcap0]
  · intro pre cap post hdec hne hall hmax hleft
    have hfind : findSheetId s.data = some cap :=
      findSheetId_pinned s.data pre cap post hdec hne hall hmax hleft
    simp [parseSheetId, hfind]
  · intro hno
    cases hf : findSheetId s.data with
    | some cap =>
      obtain ⟨pre, post, hd, hne, hall⟩ := findSheetId_sound s.data cap hf
      exact absurd ⟨pre, cap, post, hd, hne, hall⟩ hno
    | none => simp [parseSheetId, hf]

theorem c6_resolveIdentifier_witness :
    (("https://docs.google.com/spreadsheets/d/abc-DEF_123/edit#gid=0" : String).data
        = ("https://docs.google.com" : String).data ++ sheetIdPat
          ++ ("abc-DEF_123" : String).data ++ ("/edit#gid=0" : String).data)
    ∧ ("abc-DEF_123" : String).data ≠ []
    ∧ ("abc-DEF_123" : String).data.all idChar = true
    ∧ ("/edit#gid=0" : String).data.takeWhile idChar = []
    ∧ (∀ pre' cap' post',
        ("https://docs.google.com/spreadsheets/d/abc-DEF_123/edit#gid=0" : String).data
          = pre' ++ sheetIdPat ++ cap' ++ post' →
        cap' ≠ [] → cap'.all idChar = true →
        ("https://docs.google.com" : String).data.length ≤ pre'.length)
    ∧ parseSheetId "https://docs.google.com/spreadsheets/d/abc-DEF_123/edit#gid=0"
        = "abc-DEF_123" := by
  have hleft : ∀ pre' cap' post',
      ("https://docs.google.com/spreadsheets/d/abc-DEF_123/edit#gid=0" : String).data
        = pre' ++ sheetIdPat ++ cap' ++ post' →
      cap' ≠ [] → cap'.all idChar = true →
      ("https://docs.google.com" : String).data.length ≤ pre'.length := by
    have hscan : ∀ i, i < ("https://docs.google.com" : String).data.length →
        matchIdAt
          (("https://docs.google.com/spreadsheets/d/abc-DEF_123/edit#gid=0" :
            String).data.drop i) = none := by
      decide
    exact leftmost_of_scan _ _ hscan
  refine ⟨by decide, by decide, by decide, by decide, hleft, ?_⟩
  exact (c6_resolveIdentifier
      "https://docs.google.com/spreadsheets/d/abc-DEF_123/edit#gid=0").2.1
    ("https://docs.google.com" : String).data
    ("abc-DEF_123" : String).data
    ("/edit#gid=0" : String).data
    (by decide) (by decide) (by decide) (by decide) hleft

/-- Claim C7 (amended): a name present on the adapter (own field, class
method, or inherited member) resolves to the adapter's member on get, and
a set on such a name never touches the mapping and — except for the one
inherited `__proto__` accessor, whose setter ignores a string value —
writes the adapter's own property, so a subsequent get sees the assigned
value: assigning to a method name shadows and overwrites the method.  A
set on any other name lands in the mapping, is visible on the next get,
and appears as a `[key, value]` row in the next `save()`. -/
theorem c7_accessor_precedence (st : ProxyStore) (p v : String) :
    (inTarget st p = true →
      (proxySet st p v).data = st.data
      ∧ proxyGet st p = targetGet st p
      ∧ (p ≠ "__proto__" → proxyGet (proxySet st p v) p = JsVal.str v))
    ∧ (inTarget st p = false →
      (proxySet st p v).data = objSet st.data p v
      ∧ proxyGet (proxySet st p v) p = JsVal.str v
      ∧ [p, v] ∈ entriesRows (proxySet st p v).data) := by
  constructor
  · intro h
    refine ⟨?_, by simp [proxyGet, h], ?_⟩
    · show (proxySet st p v).data = st.data
      simp only [proxySet, h, if_true]
      cases ho : objGet st.ownProps p with
      | some w => rfl
      | none =>
        by_cases hp : p = "__proto__"
        · simp [hp]
        · simp [hp]
    · intro hp
      have hset : proxySet st p v
          = { st with ownProps := objSet st.ownProps p (JsVal.str v) } := by
        simp only [proxySet, h, if_true]
        cases ho : objGet st.ownProps p with
        | some w => rfl
        | none => simp [hp]
      have hin : inTarget { st with ownProps := objSet st.ownProps p (JsVal.str v) } p
          = true := by
        simp [inTarget, objGet_objSet_self]
      rw [hset]
      simp [proxyGet, hin, targetGet, objGet_objSet_self]
  · intro h
    have hset : proxySet st p v = { st with data := objSet st.data p v } := by
      simp [proxySet, h]
    have hin : inTarget { st with data := objSet st.data p v } p = false := h
    refine ⟨by rw [hset], ?_, ?_⟩
    · rw [hset]
      simp [proxyGet, hin, objGet_objSet_self]
    · rw [hset]
      exact List.mem_map_of_mem _ (mem_objSet_self st.data p v)

/-- A freshly wrapped store, as the factory produces. -/
def demoStore : ProxyStore :=
  wrapStoreInProxy (mkKeyValueStore "jwt" "sheet-1" (some "Config") "A" 1)

/-- Claim C7 as frozen fails on the code: assigning to the method name
`save` shadows and overwrites the method — the next get sees the assigned
string, not the method — and the assignment is not stored in the mapping
either. -/
theorem c7_accessor_counterexample :
    proxyGet demoStore "save" = JsVal.native "save"
    ∧ proxyGet (proxySet demoStore "save" "x") "save" = JsVal.str "x"
    ∧ JsVal.str "x" ≠ JsVal.native "save"
    ∧ (proxySet demoStore "save" "x").data = [] := by
  refine ⟨?_, ?_, ?_, ?_⟩ <;> decide

theorem c7_accessor_precedence_witness :
    (inTarget demoStore "save" = true
      ∧ ((proxySet demoStore "save" "x").data = demoStore.data
        ∧ proxyGet demoStore "save" = targetGet demoStore "save"
        ∧ (("save" : String) ≠ "__proto__" →
            proxyGet (proxySet demoStore "save" "x") "save" = JsVal.str "x")))
    ∧ proxyGet (proxySet demoStore "save" "x") "save" = JsVal.str "x"
    ∧ (inTarget demoStore "answer" = false
      ∧ ((proxySet demoStore "answer" "42").data = objSet demoStore.data "answer" "42"
        ∧ proxyGet (proxySet demoStore "answer" "42") "answer" = JsVal.str "42"
        ∧ ["answer", "42"] ∈ entriesRows (proxySet demoStore "answer" "42").data)) :=
  ⟨⟨by decide, (c7_accessor_precedence demoStore "save" "x").1 (by decide)⟩,
   ((c7_accessor_precedence demoStore "save" "x").1 (by decide)).2.2 (by decide),
   ⟨by decide, (c7_accessor_precedence demoStore "answer" "42").2 (by decide)⟩⟩

/-- Claim C8: when a non-empty explicit email+key pair is supplied, it is
returned as the credentials and no filesystem access happens at all,
whatever credentials-file path is also supplied and whatever the file
holds. -/
theorem c8_credential_precedence (e k sac : String) (fs : FsModel)
    (he : e ≠ "") (hk : k ≠ "") :
    getServiceAccountCredentials (some e) (some k) sac fs
      = (Except.ok { client_email := e, private_key := k }, []) := by
  simp [getServiceAccountCredentials, truthy, he, hk]

/-- Filesystem in which the credentials file exists and would parse — it
must still not be read. -/
def c8Fs : FsModel :=
  { resolvePath := fun p => p, fileExists := fun _ => true,
    readFile := fun _ => "{}",
    parseJson := fun _ => Except.ok { client_email := "f", private_key := "g" } }

theorem c8_credential_precedence_witness :
    (("svc@example.com" : String) ≠ "" ∧ ("key-material" : String) ≠ "")
    ∧ getServiceAccountCredentials (some "svc@example.com") (some "key-material")
        "./service_account.json" c8Fs
      = (Except.ok { client_email := "svc@example.com",
                     private_key := "key-material" }, []) :=
  ⟨⟨by decide, by decide⟩,
   c8_credential_precedence "svc@example.com" "key-material"
     "./service_account.json" c8Fs (by decide) (by decide)⟩

/-- Claim C9: the factory fails with a configuration error, having issued
no remote call, when no document identifier resolves (the SHEET_ID error)
or when no usable credential source exists (no truthy explicit pair and no
existing credentials file). -/
theorem c9_config_errors (opts : FactoryOptions) (env : Env)
    (parseNum : String → Int) (fs : FsModel) (remote : RemoteModel) :
    (truthy (resolvedSheetId opts env) = false →
      createKeyValueStore opts env parseNum fs remote
        = (Except.error "No SHEET_ID found. Provide it via options or .env.", []))
    ∧ ((truthy (resolvedClientEmail opts env)
          && truthy (resolvedPrivateKey opts env)) = false →
      fs.fileExists (fs.resolvePath (resolvedCredsPath opts env)) = false →
      ∃ msg, createKeyValueStore opts env parseNum fs remote
        = (Except.error msg, [])) := by
  constructor
  · intro h
    simp [createKeyValueStore, h]
  · intro h1 h2
    by_cases hs : truthy (resolvedSheetId opts env)
    · refine ⟨"Cannot find valid service account credentials. Provide either (clientEmail, privateKey) or a valid serviceAccountCredentials file.", ?_⟩
      simp [createKeyValueStore, hs, getServiceAccountCredentials, h1, h2]
    · refine ⟨"No SHEET_ID found. Provide it via options or .env.", ?_⟩
      simp [createKeyValueStore, hs]

/-- Filesystem with no credentials file anywhere. -/
def c9Fs : FsModel :=
  { resolvePath := fun p => p, fileExists := fun _ => false,
    readFile := fun _ => "", parseJson := fun _ => Except.error "unused" }

/-- Remote service that would answer every call — it must never be
reached. -/
def c9Remote : RemoteModel :=
  { authorize := Except.ok (), valuesGet := fun _ _ => Except.ok none }

theorem c9_config_errors_witness :
    (truthy (resolvedSheetId {} {}) = false
      ∧ createKeyValueStore {} {} (fun _ => 1) c9Fs c9Remote
          = (Except.error "No SHEET_ID found. Provide it via options or .env.", []))
    ∧ ((truthy (resolvedClientEmail { sheetId := some "sheet-xyz" } {})
          && truthy (resolvedPrivateKey { sheetId := some "sheet-xyz" } {})) = false
      ∧ c9Fs.fileExists (c9Fs.resolvePath
          (resolvedCredsPath { sheetId := some "sheet-xyz" } {})) = false
      ∧ ∃ msg, createKeyValueStore { sheetId := some "sheet-xyz" } {}
          (fun _ => 1) c9Fs c9Remote = (Except.error msg, [])) := by
  refine ⟨⟨rfl, ?_⟩, rfl, rfl, ?_⟩
  · exact (c9_config_errors {} {} (fun _ => 1) c9Fs c9Remote).1 rfl
  · exact (c9_config_errors { sheetId := some "sheet-xyz" } {}
      (fun _ => 1) c9Fs c9Remote).2 rfl rfl

end KVSheet
